import Mathlib

/-!
Shallow embedding of the core pallet-layout optimizer
(`pallet_optimizer.py`): orientation enumeration, best-orientation
selection, box metrics aggregation, the two-box combination heuristic and
dimension-value parsing.  Dimensions are millimetres, modelled as `Nat`.
Python's `ZeroDivisionError` (possible in `find_best_orientation` when an
orientation assigns height 0) is modelled by `Except Unit`.
-/

/-- A dimension triple `(length, width, height)` in millimetres. -/
abbrev Tri := Nat × Nat × Nat

/-- Mirror of the `OrientationSummary` dataclass. -/
structure OrientationSummary where
  orientation : Tri
  per_layer : Nat
  layers : Nat
  total : Nat
  grid : Nat × Nat
deriving DecidableEq

/-- Mirror of the `BoxMetrics` dataclass (the `error` field is unused by the
core computation paths modelled here).  The Python `dict` keyed by height
limit is modelled as an association list in insertion order. -/
structure BoxMetrics where
  dims_mm : Tri
  sorted_dims_mm : Tri
  best_by_height : List (Nat × Option OrientationSummary)
deriving DecidableEq

/-- The arrangement tag returned by `evaluate_combination_pair`. -/
inductive Arrangement where
  | length
  | width
  | stack
deriving DecidableEq

/-- The detail dictionary returned by `evaluate_combination_pair` on
success: keys `orientation_a`, `orientation_b`, `arrangement`. -/
structure ComboDetail where
  orientation_a : Tri
  orientation_b : Tri
  arrangement : Arrangement
deriving DecidableEq

/-- One per-height-limit entry produced by `evaluate_combination_for_group`:
keys `ok`, `detail`, `note`. -/
structure GroupResult where
  ok : Bool
  detail : Option ComboDetail
  note : Option String
deriving DecidableEq

/-- Strict ascending lexicographic order on dimension triples: the order
used by Python's `sorted` on 3-tuples of integers. -/
def triLt (x y : Tri) : Prop :=
  x.1 < y.1 ∨ (x.1 = y.1 ∧ (x.2.1 < y.2.1 ∨ (x.2.1 = y.2.1 ∧ x.2.2 < y.2.2)))

instance : DecidableRel triLt := fun x y => by
  unfold triLt; exact inferInstance

/-- The six permutations of a triple, in the enumeration order of
`itertools.permutations((a, b, c), 3)`. -/
def perms (t : Tri) : List Tri :=
  [(t.1, t.2.1, t.2.2), (t.1, t.2.2, t.2.1),
   (t.2.1, t.1, t.2.2), (t.2.1, t.2.2, t.1),
   (t.2.2, t.1, t.2.1), (t.2.2, t.2.1, t.1)]

/-- Insert into a strictly-sorted list, skipping duplicates.  Folding this
over a list computes `sorted(set(...))`. -/
def insertOrient (x : Tri) : List Tri → List Tri
  | [] => [x]
  | y :: ys =>
    if triLt x y then x :: y :: ys
    else if x = y then y :: ys
    else y :: insertOrient x ys

/-- Mirror of `unique_permutations`: `sorted({perm for perm in
itertools.permutations(values, 3)})` — the deduplicated permutations of the
triple in ascending lexicographic order. -/
def unique_permutations (t : Tri) : List Tri :=
  (perms t).foldr insertOrient []

/-- Evaluation of a single orientation inside the loop of
`find_best_orientation` (lines 177-202).  `Except.error ()` models the
`ZeroDivisionError` raised by `math.floor(height_limit / height)` when the
orientation's height is zero (that division is only reached after both grid
counts were found positive). -/
def evalOrientationE (maxL maxW height_limit : Nat) (o : Tri) :
    Except Unit (Option OrientationSummary) :=
  let len := o.1
  let wid := o.2.1
  let hei := o.2.2
  if hei > height_limit then Except.ok none
  else
    let fit_length := if len ≠ 0 then maxL / len else 0
    let fit_width := if wid ≠ 0 then maxW / wid else 0
    if fit_length ≤ 0 ∨ fit_width ≤ 0 then Except.ok none
    else if hei = 0 then Except.error ()
    else
      let layers := height_limit / hei
      if layers ≤ 0 then Except.ok none
      else
        Except.ok (some
          { orientation := o
            per_layer := fit_length * fit_width
            layers := layers
            total := fit_length * fit_width * layers
            grid := (fit_length, fit_width) })

/-- The pure value of `evalOrientationE` when it does not raise: the
division-error branch is mapped to `none`. -/
def evalOrientationP (maxL maxW height_limit : Nat) (o : Tri) :
    Option OrientationSummary :=
  let len := o.1
  let wid := o.2.1
  let hei := o.2.2
  if hei > height_limit then none
  else
    let fit_length := if len ≠ 0 then maxL / len else 0
    let fit_width := if wid ≠ 0 then maxW / wid else 0
    if fit_length ≤ 0 ∨ fit_width ≤ 0 then none
    else if hei = 0 then none
    else
      let layers := height_limit / hei
      if layers ≤ 0 then none
      else
        some
          { orientation := o
            per_layer := fit_length * fit_width
            layers := layers
            total := fit_length * fit_width * layers
            grid := (fit_length, fit_width) }

/-- The update of `best` by a candidate `summary` (lines 204-226 of
`find_best_orientation`): keep the larger total, breaking ties by more
layers, then more boxes per layer, then smaller assigned height. -/
def stepBest (best : Option OrientationSummary) (summary : OrientationSummary) :
    Option OrientationSummary :=
  match best with
  | none => some summary
  | some b =>
    if summary.total > b.total then some summary
    else if summary.total = b.total then
      if summary.layers > b.layers then some summary
      else if summary.layers = b.layers ∧ summary.per_layer > b.per_layer then
        some summary
      else if summary.layers = b.layers ∧ summary.per_layer = b.per_layer ∧
          summary.orientation.2.2 < b.orientation.2.2 then
        some summary
      else some b
    else some b

/-- The orientation loop of `find_best_orientation`, propagating the
possible division error. -/
def bestLoop (maxL maxW height_limit : Nat) :
    List Tri → Option OrientationSummary →
    Except Unit (Option OrientationSummary)
  | [], best => Except.ok best
  | o :: rest, best =>
    match evalOrientationE maxL maxW height_limit o with
    | Except.error e => Except.error e
    | Except.ok none => bestLoop maxL maxW height_limit rest best
    | Except.ok (some s) => bestLoop maxL maxW height_limit rest (stepBest best s)

/-- Error-free version of the orientation loop. -/
def bestLoopP (maxL maxW height_limit : Nat) :
    List Tri → Option OrientationSummary → Option OrientationSummary
  | [], best => best
  | o :: rest, best =>
    match evalOrientationP maxL maxW height_limit o with
    | none => bestLoopP maxL maxW height_limit rest best
    | some s => bestLoopP maxL maxW height_limit rest (stepBest best s)

/-- Mirror of `find_best_orientation(dims_mm, pallet_length, pallet_width,
height_limit, overhang)`. -/
def find_best_orientation (dims_mm : Tri)
    (pallet_length pallet_width height_limit overhang : Nat) :
    Except Unit (Option OrientationSummary) :=
  bestLoop (pallet_length + overhang) (pallet_width + overhang) height_limit
    (unique_permutations dims_mm) none

/-- Relation stating that `summary` strictly precedes `b` in the selection order of
`find_best_orientation`: larger total, or equal total with more layers,
then more per layer, then smaller assigned height. -/
def Better (s b : OrientationSummary) : Prop :=
  s.total > b.total ∨
  (s.total = b.total ∧ s.layers > b.layers) ∨
  (s.total = b.total ∧ s.layers = b.layers ∧ s.per_layer > b.per_layer) ∨
  (s.total = b.total ∧ s.layers = b.layers ∧ s.per_layer = b.per_layer ∧
    s.orientation.2.2 < b.orientation.2.2)

instance : DecidableRel Better := fun s b => by
  unfold Better; exact inferInstance

/-- Descending insertion used to model `sorted(dims_mm, reverse=True)`. -/
def insertDesc (x : Nat) : List Nat → List Nat
  | [] => [x]
  | y :: ys => if x ≥ y then x :: y :: ys else y :: insertDesc x ys

/-- Mirror of `tuple(sorted(dims_mm, reverse=True))` for a triple. -/
def sortDesc (t : Tri) : Tri :=
  match insertDesc t.1 (insertDesc t.2.1 (insertDesc t.2.2 [])) with
  | [x, y, z] => (x, y, z)
  | _ => t

/-- The per-limit loop of `compute_box_metrics`, building `best_by_height`
in the order of `height_limits` and propagating a possible division
error. -/
def metricsLoop (dims_mm : Tri) (pallet_length pallet_width overhang : Nat) :
    List Nat → Except Unit (List (Nat × Option OrientationSummary))
  | [] => Except.ok []
  | limit :: rest =>
    match find_best_orientation dims_mm pallet_length pallet_width limit overhang with
    | Except.error e => Except.error e
    | Except.ok r =>
      match metricsLoop dims_mm pallet_length pallet_width overhang rest with
      | Except.error e => Except.error e
      | Except.ok tail => Except.ok ((limit, r) :: tail)

/-- Mirror of `compute_box_metrics(dims_mm, pallet_length, pallet_width,
overhang, height_limits)`. -/
def compute_box_metrics (dims_mm : Tri)
    (pallet_length pallet_width overhang : Nat) (height_limits : List Nat) :
    Except Unit BoxMetrics :=
  match metricsLoop dims_mm pallet_length pallet_width overhang height_limits with
  | Except.error e => Except.error e
  | Except.ok l =>
    Except.ok
      { dims_mm := dims_mm
        sorted_dims_mm := sortDesc dims_mm
        best_by_height := l }

/-- Side-by-side along the pallet length (option 1 of
`evaluate_combination_pair`). -/
def lengthCond (maxL maxW : Nat) (oa ob : Tri) : Prop :=
  oa.1 + ob.1 ≤ maxL ∧ max oa.2.1 ob.2.1 ≤ maxW

instance (maxL maxW : Nat) (oa ob : Tri) : Decidable (lengthCond maxL maxW oa ob) := by
  unfold lengthCond; exact inferInstance

/-- Side-by-side along the pallet width (option 2). -/
def widthCond (maxL maxW : Nat) (oa ob : Tri) : Prop :=
  max oa.1 ob.1 ≤ maxL ∧ oa.2.1 + ob.2.1 ≤ maxW

instance (maxL maxW : Nat) (oa ob : Tri) : Decidable (widthCond maxL maxW oa ob) := by
  unfold widthCond; exact inferInstance

/-- Stacked on top of each other (option 3). -/
def stackCond (maxL maxW height_limit : Nat) (oa ob : Tri) : Prop :=
  max oa.1 ob.1 ≤ maxL ∧ max oa.2.1 ob.2.1 ≤ maxW ∧
    oa.2.2 + ob.2.2 ≤ height_limit

instance (maxL maxW hl : Nat) (oa ob : Tri) : Decidable (stackCond maxL maxW hl oa ob) := by
  unfold stackCond; exact inferInstance

/-- The body of the double loop of `evaluate_combination_pair` for one
orientation pair: skip if either height exceeds the limit, otherwise test
the three arrangements in the fixed order length, width, stack. -/
def tryPair (maxL maxW height_limit : Nat) (oa ob : Tri) : Option ComboDetail :=
  if oa.2.2 > height_limit ∨ ob.2.2 > height_limit then none
  else if lengthCond maxL maxW oa ob then
    some ⟨oa, ob, Arrangement.length⟩
  else if widthCond maxL maxW oa ob then
    some ⟨oa, ob, Arrangement.width⟩
  else if stackCond maxL maxW height_limit oa ob then
    some ⟨oa, ob, Arrangement.stack⟩
  else none

/-- The nested loop order of `evaluate_combination_pair`: for each
orientation of A (outer), each orientation of B (inner). -/
def crossPairs : List Tri → List Tri → List (Tri × Tri)
  | [], _ => []
  | a :: as, bs => bs.map (fun b => (a, b)) ++ crossPairs as bs

/-- Strict lexicographic order on orientation pairs, matching the
enumeration order of the nested loops over two sorted orientation lists. -/
def pairLt (p q : Tri × Tri) : Prop :=
  triLt p.1 q.1 ∨ (p.1 = q.1 ∧ triLt p.2 q.2)

/-- Mirror of `evaluate_combination_pair(dims_a, dims_b, pallet_length,
pallet_width, overhang, height_limit)`: first feasible orientation pair and
arrangement in enumeration order, else `(False, None)`. -/
def evaluate_combination_pair (dims_a dims_b : Tri)
    (pallet_length pallet_width overhang height_limit : Nat) :
    Bool × Option ComboDetail :=
  match (crossPairs (unique_permutations dims_a) (unique_permutations dims_b)).findSome?
      (fun p => tryPair (pallet_length + overhang) (pallet_width + overhang)
        height_limit p.1 p.2) with
  | some d => (true, some d)
  | none => (false, none)

/-- Mirror of `evaluate_combination_for_group(dims_list, pallet_length,
pallet_width, overhang, height_limits)`.  The Python `dict` keyed by height
limit is modelled as an association list in insertion order. -/
def evaluate_combination_for_group (dims_list : List Tri)
    (pallet_length pallet_width overhang : Nat) (height_limits : List Nat) :
    List (Nat × GroupResult) :=
  match dims_list with
  | [] => []
  | [_] => []
  | [a, b] =>
    height_limits.map (fun limit =>
      let r := evaluate_combination_pair a b pallet_length pallet_width
        overhang limit
      (limit, { ok := r.1, detail := r.2, note := none }))
  | _ :: _ :: _ :: _ =>
    height_limits.map (fun limit =>
      (limit, { ok := false, detail := none,
                note := some "Более двух артикулов в группе" }))

/-- The possible runtime types of a spreadsheet cell handed to
`parse_dimension_value`.  Python `float` values are modelled as exact
rationals. -/
inductive RawValue where
  | null
  | bool (b : Bool)
  | int (n : Int)
  | float (q : ℚ)
  | str (s : String)
  | other
deriving DecidableEq

/-- Mirror of `value.strip()`: remove leading and trailing whitespace. -/
def trimChars (l : List Char) : List Char :=
  ((l.dropWhile Char.isWhitespace).reverse.dropWhile Char.isWhitespace).reverse

/-- Mirror of `cleaned.replace(",", ".")` followed by
`re.sub(r"[^0-9+\-.]", "", cleaned)`. -/
def cleanChars (l : List Char) : List Char :=
  (l.map (fun c => if c = ',' then '.' else c)).filter
    (fun c => c.isDigit ∨ c = '+' ∨ c = '-' ∨ c = '.')

/-- Read a maximal run of leading digits: accumulated value, digit count,
remaining characters. -/
def digitsAux : List Char → Nat → Nat → Nat × Nat × List Char
  | [], v, k => (v, k, [])
  | c :: rest, v, k =>
    if c.isDigit then digitsAux rest (v * 10 + (c.toNat - '0'.toNat)) (k + 1)
    else (v, k, c :: rest)

/-- Model of `float(cleaned)` restricted to the alphabet left by `cleanChars`
(digits, sign, point): an optional sign, then digits with at most one
decimal point and at least one digit in total; the value is exact. -/
def parseFloatChars (l : List Char) : Option ℚ :=
  let signAndRest : ℚ × List Char :=
    match l with
    | '+' :: r => (1, r)
    | '-' :: r => (-1, r)
    | _ => (1, l)
  let sign := signAndRest.1
  let afterSign := signAndRest.2
  let d1 := digitsAux afterSign 0 0
  match d1.2.2 with
  | [] => if d1.2.1 = 0 then none else some (sign * d1.1)
  | '.' :: r =>
    let d2 := digitsAux r 0 0
    if d2.2.2 = [] ∧ 0 < d1.2.1 + d2.2.1 then
      some (sign * ((d1.1 : ℚ) + (d2.1 : ℚ) / (10 : ℚ) ^ d2.2.1))
    else none
  | _ => none

/-- Mirror of `parse_dimension_value`: `None` and unsupported types fail;
non-boolean numerics convert directly; strings are trimmed, comma-
normalized, stripped of characters outside digits/sign/point, rejected
when the residue is empty or a lone sign/point, and otherwise parsed as a
float. -/
def parse_dimension_value (value : RawValue) : Option ℚ :=
  match value with
  | RawValue.null => none
  | RawValue.bool _ => none
  | RawValue.int n => some (n : ℚ)
  | RawValue.float q => some q
  | RawValue.str s =>
    let cleaned := trimChars s.toList
    if cleaned = [] then none
    else
      let cleaned2 := cleanChars cleaned
      if cleaned2 = [] ∨ cleaned2 = ['+'] ∨ cleaned2 = ['-'] ∨ cleaned2 = ['.'] then
        none
      else parseFloatChars cleaned2
  | RawValue.other => none

theorem triLt_trans {x y z : Tri} (h1 : triLt x y) (h2 : triLt y z) : triLt x z := by
  unfold triLt at *; omega

theorem triLt_ne {x y : Tri} (h : triLt x y) : x ≠ y := by
  unfold triLt at h
  intro he
  rw [Prod.ext_iff, Prod.ext_iff] at he
  omega

theorem triLt_of_not {x y : Tri} (h1 : ¬ triLt x y) (h2 : x ≠ y) : triLt y x := by
  unfold triLt at *
  rw [ne_eq, Prod.ext_iff, Prod.ext_iff] at h2
  omega

theorem mem_insertOrient {x z : Tri} : ∀ {l : List Tri}, z ∈ insertOrient x l ↔ z = x ∨ z ∈ l := by
  intro l
  induction l with
  | nil => simp [insertOrient]
  | cons y ys ih =>
    simp only [insertOrient]
    split_ifs with h1 h2
    · simp [or_comm, or_assoc]
    · subst h2; simp [or_comm]
    · simp [ih]; tauto

theorem pairwise_insertOrient {x : Tri} : ∀ {l : List Tri},
    l.Pairwise triLt → (insertOrient x l).Pairwise triLt := by
  intro l
  induction l with
  | nil => intro _; simp [insertOrient]
  | cons y ys ih =>
    intro hp
    rw [List.pairwise_cons] at hp
    simp only [insertOrient]
    split_ifs with h1 h2
    · rw [List.pairwise_cons]
      constructor
      · intro z hz
        rcases List.mem_cons.mp hz with rfl | hz'
        · exact h1
        · exact triLt_trans h1 (hp.1 z hz')
      · exact List.pairwise_cons.mpr hp
    · exact List.pairwise_cons.mpr hp
    · rw [List.pairwise_cons]
      refine ⟨?_, ih hp.2⟩
      intro z hz
      rcases mem_insertOrient.mp hz with rfl | hz'
      · exact triLt_of_not h1 h2
      · exact hp.1 z hz'

theorem mem_foldr_insertOrient {z : Tri} : ∀ {L : List Tri},
    z ∈ L.foldr insertOrient [] ↔ z ∈ L := by
  intro L
  induction L with
  | nil => simp
  | cons y ys ih => simp [List.foldr, mem_insertOrient, ih]

theorem pairwise_foldr_insertOrient : ∀ (L : List Tri),
    (L.foldr insertOrient []).Pairwise triLt := by
  intro L
  induction L with
  | nil => simp
  | cons y ys ih => exact pairwise_insertOrient ih

theorem unique_permutations_pairwise (t : Tri) :
    (unique_permutations t).Pairwise triLt :=
  pairwise_foldr_insertOrient (perms t)

theorem mem_unique_permutations {z : Tri} {t : Tri} :
    z ∈ unique_permutations t ↔ z ∈ perms t :=
  mem_foldr_insertOrient

theorem unique_permutations_nodup (t : Tri) :
    (unique_permutations t).Nodup :=
  (unique_permutations_pairwise t).imp (fun h => triLt_ne h)

theorem unique_permutations_toFinset (t : Tri) :
    (unique_permutations t).toFinset = (perms t).toFinset := by
  ext z
  simp [List.mem_toFinset, mem_unique_permutations]

theorem unique_permutations_length (t : Tri) :
    (unique_permutations t).length = (perms t).toFinset.card := by
  rw [← unique_permutations_toFinset, List.toFinset_card_of_nodup (unique_permutations_nodup t)]

theorem card_perms_all_eq (a : Nat) : ((perms (a, a, a)).toFinset).card = 1 := by
  have h : (perms (a, a, a)).toFinset = {(a, a, a)} := by
    ext x; simp [perms]
  rw [h, Finset.card_singleton]

theorem card_perms_ab_eq (a c : Nat) (hne : a ≠ c) :
    ((perms (a, a, c)).toFinset).card = 3 := by
  have h : (perms (a, a, c)).toFinset = {(a, a, c), (a, c, a), (c, a, a)} := by
    ext x; simp [perms]; try tauto
  rw [h]
  rw [Finset.card_insert_of_not_mem (by simp [Prod.ext_iff]; omega),
    Finset.card_insert_of_not_mem (by simp [Prod.ext_iff]; omega),
    Finset.card_singleton]

theorem card_perms_ac_eq (a b : Nat) (hne : a ≠ b) :
    ((perms (a, b, a)).toFinset).card = 3 := by
  have h : (perms (a, b, a)).toFinset = {(a, b, a), (a, a, b), (b, a, a)} := by
    ext x; simp [perms]; try tauto
  rw [h]
  rw [Finset.card_insert_of_not_mem (by simp [Prod.ext_iff]; omega),
    Finset.card_insert_of_not_mem (by simp [Prod.ext_iff]; omega),
    Finset.card_singleton]

theorem card_perms_bc_eq (a b : Nat) (hne : a ≠ b) :
    ((perms (a, b, b)).toFinset).card = 3 := by
  have h : (perms (a, b, b)).toFinset = {(a, b, b), (b, a, b), (b, b, a)} := by
    ext x; simp [perms]; try tauto
  rw [h]
  rw [Finset.card_insert_of_not_mem (by simp [Prod.ext_iff]; omega),
    Finset.card_insert_of_not_mem (by simp [Prod.ext_iff]; omega),
    Finset.card_singleton]

theorem card_perms_distinct (a b c : Nat) (hab : a ≠ b) (hbc : b ≠ c) (hac : a ≠ c) :
    ((perms (a, b, c)).toFinset).card = 6 := by
  have h : (perms (a, b, c)).toFinset =
      {(a, b, c), (a, c, b), (b, a, c), (b, c, a), (c, a, b), (c, b, a)} := by
    ext x; simp [perms]; try tauto
  rw [h]
  rw [Finset.card_insert_of_not_mem (by simp [Prod.ext_iff]; omega),
    Finset.card_insert_of_not_mem (by simp [Prod.ext_iff]; omega),
    Finset.card_insert_of_not_mem (by simp [Prod.ext_iff]; omega),
    Finset.card_insert_of_not_mem (by simp [Prod.ext_iff]; omega),
    Finset.card_insert_of_not_mem (by simp [Prod.ext_iff]; omega),
    Finset.card_singleton]

theorem evalE_ok {maxL maxW hl : Nat} {o : Tri} {v : Option OrientationSummary}
    (h : evalOrientationE maxL maxW hl o = Except.ok v) :
    evalOrientationP maxL maxW hl o = v := by
  simp only [evalOrientationE] at h
  simp only [evalOrientationP]
  split_ifs at h <;> simp_all

theorem evalE_of_height {maxL maxW hl : Nat} {o : Tri} (hh : o.2.2 ≠ 0) :
    evalOrientationE maxL maxW hl o = Except.ok (evalOrientationP maxL maxW hl o) := by
  simp only [evalOrientationE, evalOrientationP]
  split_ifs <;> simp_all

theorem evalP_some_spec {maxL maxW hl : Nat} {o : Tri} {s : OrientationSummary}
    (h : evalOrientationP maxL maxW hl o = some s) :
    s.orientation = o ∧ o.1 ≠ 0 ∧ o.2.1 ≠ 0 ∧ o.2.2 ≠ 0 ∧ o.2.2 ≤ hl ∧
    s.grid.1 = maxL / o.1 ∧ s.grid.2 = maxW / o.2.1 ∧
    s.per_layer = s.grid.1 * s.grid.2 ∧ s.layers = hl / o.2.2 ∧
    s.total = s.per_layer * s.layers ∧
    0 < s.grid.1 ∧ 0 < s.grid.2 ∧ 0 < s.layers := by
  simp only [evalOrientationP] at h
  split_ifs at h <;> first
    | exact Option.noConfusion h
    | (rw [Option.some.injEq] at h
       subst h
       dsimp only
       refine ⟨rfl, ?_, ?_, ?_, ?_, rfl, rfl, rfl, rfl, rfl, ?_, ?_, ?_⟩ <;> omega)
    | (exfalso; omega)

theorem evalP_fit (maxL maxW hl : Nat) (o : Tri)
    (h1 : o.1 ≠ 0) (h2 : o.2.1 ≠ 0) (h3 : 0 < o.2.2) (h4 : o.2.2 ≤ hl)
    (h5 : 0 < maxL / o.1) (h6 : 0 < maxW / o.2.1) :
    evalOrientationP maxL maxW hl o = some
      { orientation := o
        per_layer := (maxL / o.1) * (maxW / o.2.1)
        layers := hl / o.2.2
        total := (maxL / o.1) * (maxW / o.2.1) * (hl / o.2.2)
        grid := (maxL / o.1, maxW / o.2.1) } := by
  have hlay : 0 < hl / o.2.2 := Nat.div_pos h4 h3
  simp only [evalOrientationP, if_pos h1, if_pos h2]
  split_ifs <;> first | rfl | omega

theorem Better_trans {s t b : OrientationSummary}
    (h1 : Better s t) (h2 : Better t b) : Better s b := by
  unfold Better at *; omega

theorem Better_irrefl (b : OrientationSummary) : ¬ Better b b := by
  unfold Better; omega

theorem Better_resolve {s t b : OrientationSummary}
    (h1 : ¬ Better s t) (h2 : Better s b) : Better t b := by
  unfold Better at *; omega

theorem Better_total_le {s b : OrientationSummary} (h : ¬ Better s b) :
    s.total ≤ b.total := by
  unfold Better at h; omega

theorem stepBest_of_better {b s : OrientationSummary} (h : Better s b) :
    stepBest (some b) s = some s := by
  simp only [stepBest]
  unfold Better at h
  split_ifs <;> first | rfl | omega

theorem stepBest_of_not_better {b s : OrientationSummary} (h : ¬ Better s b) :
    stepBest (some b) s = some b := by
  simp only [stepBest]
  unfold Better at h
  split_ifs <;> first | rfl | omega

theorem stepBest_cases (best : Option OrientationSummary) (s : OrientationSummary) :
    stepBest best s = some s ∨ stepBest best s = best := by
  cases best with
  | none => left; rfl
  | some b =>
    by_cases hb : Better s b
    · left; exact stepBest_of_better hb
    · right; exact stepBest_of_not_better hb

theorem bestLoopP_cons_none {maxL maxW hl : Nat} {o : Tri} {rest : List Tri}
    {best : Option OrientationSummary}
    (h : evalOrientationP maxL maxW hl o = none) :
    bestLoopP maxL maxW hl (o :: rest) best = bestLoopP maxL maxW hl rest best := by
  simp [bestLoopP, h]

theorem bestLoopP_cons_some {maxL maxW hl : Nat} {o : Tri} {rest : List Tri}
    {best : Option OrientationSummary} {s : OrientationSummary}
    (h : evalOrientationP maxL maxW hl o = some s) :
    bestLoopP maxL maxW hl (o :: rest) best =
      bestLoopP maxL maxW hl rest (stepBest best s) := by
  simp [bestLoopP, h]

theorem bestLoop_cons_err {maxL maxW hl : Nat} {o : Tri} {rest : List Tri}
    {best : Option OrientationSummary}
    (h : evalOrientationE maxL maxW hl o = Except.error ()) :
    bestLoop maxL maxW hl (o :: rest) best = Except.error () := by
  simp [bestLoop, h]

theorem bestLoop_cons_ok_none {maxL maxW hl : Nat} {o : Tri} {rest : List Tri}
    {best : Option OrientationSummary}
    (h : evalOrientationE maxL maxW hl o = Except.ok none) :
    bestLoop maxL maxW hl (o :: rest) best = bestLoop maxL maxW hl rest best := by
  simp [bestLoop, h]

theorem bestLoop_cons_ok_some {maxL maxW hl : Nat} {o : Tri} {rest : List Tri}
    {best : Option OrientationSummary} {s : OrientationSummary}
    (h : evalOrientationE maxL maxW hl o = Except.ok (some s)) :
    bestLoop maxL maxW hl (o :: rest) best =
      bestLoop maxL maxW hl rest (stepBest best s) := by
  simp [bestLoop, h]

theorem bestLoopP_init_some (maxL maxW hl : Nat) :
    ∀ (L : List Tri) (b : OrientationSummary),
    ∃ c, bestLoopP maxL maxW hl L (some b) = some c := by
  intro L
  induction L with
  | nil => intro b; exact ⟨b, rfl⟩
  | cons o rest ih =>
    intro b
    cases hev : evalOrientationP maxL maxW hl o with
    | none => rw [bestLoopP_cons_none hev]; exact ih b
    | some s =>
      rw [bestLoopP_cons_some hev]
      rcases stepBest_cases (some b) s with hs | hs <;> rw [hs]
      · exact ih s
      · exact ih b

theorem bestLoopP_none_iff (maxL maxW hl : Nat) :
    ∀ (L : List Tri) (best : Option OrientationSummary),
    bestLoopP maxL maxW hl L best = none ↔
      best = none ∧ ∀ o ∈ L, evalOrientationP maxL maxW hl o = none := by
  intro L
  induction L with
  | nil => intro best; simp [bestLoopP]
  | cons o rest ih =>
    intro best
    cases hev : evalOrientationP maxL maxW hl o with
    | none =>
      rw [bestLoopP_cons_none hev, ih best]
      constructor
      · rintro ⟨h1, h2⟩
        refine ⟨h1, ?_⟩
        intro z hz
        rcases List.mem_cons.mp hz with rfl | hz'
        · exact hev
        · exact h2 z hz'
      · rintro ⟨h1, h2⟩
        exact ⟨h1, fun z hz => h2 z (List.mem_cons_of_mem o hz)⟩
    | some s =>
      rw [bestLoopP_cons_some hev]
      constructor
      · intro hrun
        exfalso
        have hsome : ∃ b, stepBest best s = some b := by
          rcases stepBest_cases best s with hs | hs
          · exact ⟨s, hs⟩
          · cases best with
            | none => exact ⟨s, rfl⟩
            | some b => exact ⟨b, hs⟩
        obtain ⟨b, hb⟩ := hsome
        rw [hb] at hrun
        obtain ⟨c, hc⟩ := bestLoopP_init_some maxL maxW hl rest b
        rw [hc] at hrun
        exact Option.noConfusion hrun
      · rintro ⟨h1, h2⟩
        exact absurd hev (by rw [h2 o (List.mem_cons_self o rest)]; simp)

theorem bestLoopP_provenance (maxL maxW hl : Nat) :
    ∀ (L : List Tri) (best : Option OrientationSummary) (c : OrientationSummary),
    bestLoopP maxL maxW hl L best = some c →
      best = some c ∨ ∃ o ∈ L, evalOrientationP maxL maxW hl o = some c := by
  intro L
  induction L with
  | nil =>
    intro best c h
    exact Or.inl h
  | cons o rest ih =>
    intro best c h
    cases hev : evalOrientationP maxL maxW hl o with
    | none =>
      rw [bestLoopP_cons_none hev] at h
      rcases ih best c h with h1 | ⟨z, hz, hz2⟩
      · exact Or.inl h1
      · exact Or.inr ⟨z, List.mem_cons_of_mem o hz, hz2⟩
    | some s =>
      rw [bestLoopP_cons_some hev] at h
      rcases ih (stepBest best s) c h with h1 | ⟨z, hz, hz2⟩
      · rcases stepBest_cases best s with hs | hs
        · rw [hs] at h1
          rw [Option.some.injEq] at h1
          subst h1
          exact Or.inr ⟨o, List.mem_cons_self o rest, hev⟩
        · rw [hs] at h1
          exact Or.inl h1
      · exact Or.inr ⟨z, List.mem_cons_of_mem o hz, hz2⟩

theorem bestLoopP_opt (maxL maxW hl : Nat) :
    ∀ (L : List Tri) (best : Option OrientationSummary) (c : OrientationSummary),
    bestLoopP maxL maxW hl L best = some c →
      (∀ b0, best = some b0 → ¬ Better b0 c) ∧
      (∀ o ∈ L, ∀ s, evalOrientationP maxL maxW hl o = some s → ¬ Better s c) := by
  intro L
  induction L with
  | nil =>
    intro best c h
    refine ⟨?_, by simp⟩
    intro b0 hb0
    rw [hb0] at h
    simp only [bestLoopP] at h
    rw [Option.some.injEq] at h
    subst h
    exact Better_irrefl b0
  | cons o rest ih =>
    intro best c h
    cases hev : evalOrientationP maxL maxW hl o with
    | none =>
      rw [bestLoopP_cons_none hev] at h
      obtain ⟨hinit, hrest⟩ := ih best c h
      refine ⟨hinit, ?_⟩
      intro z hz s hs
      rcases List.mem_cons.mp hz with rfl | hz'
      · rw [hev] at hs; exact Option.noConfusion hs
      · exact hrest z hz' s hs
    | some s =>
      rw [bestLoopP_cons_some hev] at h
      obtain ⟨hinit, hrest⟩ := ih (stepBest best s) c h
      cases best with
      | none =>
        have hns : ¬ Better s c := hinit s rfl
        refine ⟨by simp, ?_⟩
        intro z hz s2 hs2
        rcases List.mem_cons.mp hz with rfl | hz'
        · rw [hev] at hs2
          rw [Option.some.injEq] at hs2
          subst hs2
          exact hns
        · exact hrest z hz' s2 hs2
      | some b =>
        by_cases hb : Better s b
        · rw [stepBest_of_better hb] at hinit
          have hns : ¬ Better s c := hinit s rfl
          have hnb : ¬ Better b c := by
            intro hbc
            exact hns (Better_trans hb hbc)
          refine ⟨?_, ?_⟩
          · intro b0 hb0
            rw [Option.some.injEq] at hb0
            subst hb0
            exact hnb
          · intro z hz s2 hs2
            rcases List.mem_cons.mp hz with rfl | hz'
            · rw [hev] at hs2
              rw [Option.some.injEq] at hs2
              subst hs2
              exact hns
            · exact hrest z hz' s2 hs2
        · rw [stepBest_of_not_better hb] at hinit
          have hnb : ¬ Better b c := hinit b rfl
          have hns : ¬ Better s c := by
            intro hsc
            exact hnb (Better_resolve hb hsc)
          refine ⟨?_, ?_⟩
          · intro b0 hb0
            rw [Option.some.injEq] at hb0
            subst hb0
            exact hnb
          · intro z hz s2 hs2
            rcases List.mem_cons.mp hz with rfl | hz'
            · rw [hev] at hs2
              rw [Option.some.injEq] at hs2
              subst hs2
              exact hns
            · exact hrest z hz' s2 hs2

theorem bestLoop_eq_ok (maxL maxW hl : Nat) :
    ∀ (L : List Tri), (∀ o ∈ L, o.2.2 ≠ 0) →
    ∀ (best : Option OrientationSummary),
    bestLoop maxL maxW hl L best = Except.ok (bestLoopP maxL maxW hl L best) := by
  intro L
  induction L with
  | nil => intro _ best; rfl
  | cons o rest ih =>
    intro hh best
    have ho : o.2.2 ≠ 0 := hh o (List.mem_cons_self o rest)
    have hrest : ∀ z ∈ rest, z.2.2 ≠ 0 :=
      fun z hz => hh z (List.mem_cons_of_mem o hz)
    cases hev : evalOrientationP maxL maxW hl o with
    | none =>
      rw [bestLoop_cons_ok_none (by rw [evalE_of_height ho, hev]),
        bestLoopP_cons_none hev]
      exact ih hrest best
    | some s =>
      rw [bestLoop_cons_ok_some (by rw [evalE_of_height ho, hev]),
        bestLoopP_cons_some hev]
      exact ih hrest (stepBest best s)

theorem bestLoop_ok_imp (maxL maxW hl : Nat) :
    ∀ (L : List Tri) (best r : Option OrientationSummary),
    bestLoop maxL maxW hl L best = Except.ok r →
    bestLoopP maxL maxW hl L best = r := by
  intro L
  induction L with
  | nil =>
    intro best r h
    simp only [bestLoop] at h
    simp only [bestLoopP]
    injection h
  | cons o rest ih =>
    intro best r h
    cases hev : evalOrientationE maxL maxW hl o with
    | error e =>
      cases e
      rw [bestLoop_cons_err hev] at h
      exact Except.noConfusion h
    | ok v =>
      have hp : evalOrientationP maxL maxW hl o = v := evalE_ok hev
      cases v with
      | none =>
        rw [bestLoop_cons_ok_none hev] at h
        rw [bestLoopP_cons_none hp]
        exact ih best r h
      | some s =>
        rw [bestLoop_cons_ok_some hev] at h
        rw [bestLoopP_cons_some hp]
        exact ih (stepBest best s) r h

theorem mem_perms_pos {a b c : Nat} {o : Tri}
    (ha : 0 < a) (hb : 0 < b) (hc : 0 < c) (h : o ∈ perms (a, b, c)) :
    0 < o.1 ∧ 0 < o.2.1 ∧ 0 < o.2.2 := by
  simp only [perms, List.mem_cons, List.mem_singleton] at h
  rcases h with rfl | rfl | rfl | rfl | rfl | rfl | h2 <;> simp_all

theorem find_eq_pure (a b c pl pw hl ov : Nat)
    (ha : 0 < a) (hb : 0 < b) (hc : 0 < c) :
    find_best_orientation (a, b, c) pl pw hl ov =
      Except.ok (bestLoopP (pl + ov) (pw + ov) hl
        (unique_permutations (a, b, c)) none) := by
  unfold find_best_orientation
  apply bestLoop_eq_ok
  intro o ho
  have := mem_perms_pos ha hb hc (mem_unique_permutations.mp ho)
  omega

/-- C1: for positive dimensions, pallet footprint, overhang and height
limit, `find_best_orientation` returns a summary produced by one of the
enumerated orientations; no fitting orientation beats it on total boxes,
nor — at equal total — on more layers, then more boxes per layer, then
smaller assigned height; and repeated calls with identical inputs return
the identical result. -/
theorem claim_c1 (a b c pl pw ov hl : Nat)
    (ha : 0 < a) (hb : 0 < b) (hc : 0 < c)
    (o₀ : Tri) (s₀ : OrientationSummary)
    (ho : o₀ ∈ unique_permutations (a, b, c))
    (hs : evalOrientationP (pl + ov) (pw + ov) hl o₀ = some s₀) :
    ∃ best,
      find_best_orientation (a, b, c) pl pw hl ov = Except.ok (some best) ∧
      best.orientation ∈ unique_permutations (a, b, c) ∧
      evalOrientationP (pl + ov) (pw + ov) hl best.orientation = some best ∧
      (∀ o ∈ unique_permutations (a, b, c), ∀ s,
        evalOrientationP (pl + ov) (pw + ov) hl o = some s →
          s.total ≤ best.total) ∧
      (∀ o ∈ unique_permutations (a, b, c), ∀ s,
        evalOrientationP (pl + ov) (pw + ov) hl o = some s →
          ¬ Better s best) ∧
      find_best_orientation (a, b, c) pl pw hl ov =
        find_best_orientation (a, b, c) pl pw hl ov := by
  have hpure := find_eq_pure a b c pl pw hl ov ha hb hc
  set L := unique_permutations (a, b, c) with hL
  cases hrun : bestLoopP (pl + ov) (pw + ov) hl L none with
  | none =>
    exfalso
    have := (bestLoopP_none_iff (pl + ov) (pw + ov) hl L none).mp hrun
    exact absurd hs (by rw [this.2 o₀ ho]; simp)
  | some best =>
    refine ⟨best, by rw [hpure, hrun], ?_, ?_, ?_, ?_, rfl⟩
    · rcases bestLoopP_provenance (pl + ov) (pw + ov) hl L none best hrun with
        h1 | ⟨z, hz, hz2⟩
      · exact Option.noConfusion h1
      · rw [(evalP_some_spec hz2).1]; exact hz
    · rcases bestLoopP_provenance (pl + ov) (pw + ov) hl L none best hrun with
        h1 | ⟨z, hz, hz2⟩
      · exact Option.noConfusion h1
      · rw [(evalP_some_spec hz2).1]; exact hz2
    · intro o hmem s hsev
      exact Better_total_le
        ((bestLoopP_opt (pl + ov) (pw + ov) hl L none best hrun).2 o hmem s hsev)
    · intro o hmem s hsev
      exact (bestLoopP_opt (pl + ov) (pw + ov) hl L none best hrun).2 o hmem s hsev

/-- Witness for C1 at dims (400,300,200), pallet 1200×800, overhang 30,
height limit 1800, instantiated at the fitting orientation (200,300,400). -/
theorem claim_c1_witness :
    ∃ best,
      find_best_orientation (400, 300, 200) 1200 800 1800 30 = Except.ok (some best) ∧
      best.orientation ∈ unique_permutations (400, 300, 200) ∧
      evalOrientationP 1230 830 1800 best.orientation = some best ∧
      (∀ o ∈ unique_permutations (400, 300, 200), ∀ s,
        evalOrientationP 1230 830 1800 o = some s → s.total ≤ best.total) ∧
      (∀ o ∈ unique_permutations (400, 300, 200), ∀ s,
        evalOrientationP 1230 830 1800 o = some s → ¬ Better s best) ∧
      find_best_orientation (400, 300, 200) 1200 800 1800 30 =
        find_best_orientation (400, 300, 200) 1200 800 1800 30 :=
  claim_c1 400 300 200 1200 800 30 1800 (by decide) (by decide) (by decide)
    (200, 300, 400)
    { orientation := (200, 300, 400), per_layer := 12, layers := 4,
      total := 48, grid := (6, 2) }
    (by decide) (by decide)

/-- C4 counterexample: dims (0,5,7) contain a zero dimension, yet
`find_best_orientation` raises the modelled `ZeroDivisionError`: the
orientation (5,7,0) passes the footprint checks (grids 20×14) and then
divides the height limit by the zero height. -/
theorem claim_c4_counterexample :
    find_best_orientation (0, 5, 7) 100 100 100 0 = Except.error () := by
  rfl

/-- C4 (amended): an orientation whose length or width is zero yields a
grid count of zero and hence no fit, without a division error; and for
every dimension triple of three positive integers `find_best_orientation`
completes without raising.  (A zero dimension placed as the height of an
otherwise-fitting orientation still raises, per the counterexample.) -/
theorem claim_c4 :
    (∀ maxL maxW hl : Nat, ∀ o : Tri, o.1 = 0 ∨ o.2.1 = 0 →
      evalOrientationE maxL maxW hl o = Except.ok none) ∧
    (∀ a b c pl pw hl ov : Nat, 0 < a → 0 < b → 0 < c →
      ∃ r, find_best_orientation (a, b, c) pl pw hl ov = Except.ok r) := by
  constructor
  · intro maxL maxW hl o hz
    simp only [evalOrientationE]
    rcases hz with hz | hz <;> rw [hz] <;> split_ifs <;> first | rfl | omega
  · intro a b c pl pw hl ov ha hb hc
    exact ⟨_, find_eq_pure a b c pl pw hl ov ha hb hc⟩

/-- Witness for C4 (amended) at orientation (0,5,7) and dims (3,4,5). -/
theorem claim_c4_witness :
    evalOrientationE 100 100 100 (0, 5, 7) = Except.ok none ∧
    ∃ r, find_best_orientation (3, 4, 5) 10 10 10 0 = Except.ok r :=
  ⟨claim_c4.1 100 100 100 (0, 5, 7) (Or.inl rfl),
   claim_c4.2 3 4 5 10 10 10 0 (by decide) (by decide) (by decide)⟩

/-- C5: any summary returned by `find_best_orientation` satisfies
`total = per_layer × layers`, `per_layer = grid_x × grid_y`, has positive
per-layer, layer and total counts, and was produced by one of the
enumerated orientations that fits under the footprint, overhang and
height limit. -/
theorem claim_c5 (a b c pl pw hl ov : Nat) (s : OrientationSummary)
    (h : find_best_orientation (a, b, c) pl pw hl ov = Except.ok (some s)) :
    s.total = s.per_layer * s.layers ∧
    s.per_layer = s.grid.1 * s.grid.2 ∧
    0 < s.per_layer ∧ 0 < s.layers ∧ 0 < s.total ∧
    s.orientation ∈ unique_permutations (a, b, c) ∧
    evalOrientationP (pl + ov) (pw + ov) hl s.orientation = some s := by
  unfold find_best_orientation at h
  have hp := bestLoop_ok_imp (pl + ov) (pw + ov) hl
    (unique_permutations (a, b, c)) none (some s) h
  rcases bestLoopP_provenance (pl + ov) (pw + ov) hl
      (unique_permutations (a, b, c)) none s hp with h1 | ⟨o, ho, hev⟩
  · exact Option.noConfusion h1
  · obtain ⟨horient, -, -, -, -, hg1, hg2, hper, hlay, htot, hp1, hp2, hp3⟩ :=
      evalP_some_spec hev
    have hper_pos : 0 < s.per_layer := by rw [hper]; exact Nat.mul_pos hp1 hp2
    refine ⟨htot, hper, hper_pos, hp3, ?_, ?_, ?_⟩
    · rw [htot]; exact Nat.mul_pos hper_pos hp3
    · rw [horient]; exact ho
    · rw [horient]; exact hev

/-- Witness for C5 on dims (400,300,200), pallet 1200×800, overhang 30,
height limit 1800, whose best summary is (300,400,200) with 8 per layer,
9 layers, 72 total, grid 4×2. -/
theorem claim_c5_witness :
    let s : OrientationSummary :=
      { orientation := (300, 400, 200), per_layer := 8, layers := 9,
        total := 72, grid := (4, 2) }
    s.total = s.per_layer * s.layers ∧
    s.per_layer = s.grid.1 * s.grid.2 ∧
    0 < s.per_layer ∧ 0 < s.layers ∧ 0 < s.total ∧
    s.orientation ∈ unique_permutations (400, 300, 200) ∧
    evalOrientationP 1230 830 1800 s.orientation = some s :=
  claim_c5 400 300 200 1200 800 1800 30
    { orientation := (300, 400, 200), per_layer := 8, layers := 9,
      total := 72, grid := (4, 2) }
    (by rfl)

theorem metricsLoop_all_none (dims : Tri) (pl pw ov : Nat) :
    ∀ (limits : List Nat),
    (∀ l ∈ limits, find_best_orientation dims pl pw l ov = Except.ok none) →
    metricsLoop dims pl pw ov limits =
      Except.ok (limits.map (fun l => (l, none))) := by
  intro limits
  induction limits with
  | nil => intro _; rfl
  | cons l rest ih =>
    intro h
    have hl := h l (List.mem_cons_self l rest)
    have hrest := ih (fun z hz => h z (List.mem_cons_of_mem l hz))
    simp only [metricsLoop, hl, hrest, List.map]

/-- C7: when no orientation of a (positive-dimensioned) box fits at any of
the height limits, `find_best_orientation` returns the explicit absence
`none` at each limit (never a zero-total summary), and
`compute_box_metrics` records `none` for every limit; in particular for
dims (2000,2000,2000) on a 1200×800 pallet with overhang 30 and limits
[1800, 1700], every entry of `best_by_height` is `none`. -/
theorem claim_c7 (a b c pl pw ov : Nat)
    (ha : 0 < a) (hb : 0 < b) (hc : 0 < c) (limits : List Nat)
    (hnofit : ∀ l ∈ limits, ∀ o ∈ unique_permutations (a, b, c),
      evalOrientationP (pl + ov) (pw + ov) l o = none) :
    (∀ l ∈ limits, find_best_orientation (a, b, c) pl pw l ov = Except.ok none) ∧
    compute_box_metrics (a, b, c) pl pw ov limits = Except.ok
      { dims_mm := (a, b, c)
        sorted_dims_mm := sortDesc (a, b, c)
        best_by_height := limits.map (fun l => (l, none)) } ∧
    compute_box_metrics (2000, 2000, 2000) 1200 800 30 [1800, 1700] = Except.ok
      { dims_mm := (2000, 2000, 2000)
        sorted_dims_mm := (2000, 2000, 2000)
        best_by_height := [(1800, none), (1700, none)] } := by
  have hfind : ∀ l ∈ limits,
      find_best_orientation (a, b, c) pl pw l ov = Except.ok none := by
    intro l hlmem
    rw [find_eq_pure a b c pl pw l ov ha hb hc]
    rw [(bestLoopP_none_iff (pl + ov) (pw + ov) l
      (unique_permutations (a, b, c)) none).mpr ⟨rfl, hnofit l hlmem⟩]
  refine ⟨hfind, ?_, by rfl⟩
  unfold compute_box_metrics
  rw [metricsLoop_all_none (a, b, c) pl pw ov limits hfind]

/-- Witness for C7 at the scenario dims (2000,2000,2000), pallet 1200×800,
overhang 30, height limits [1800, 1700]. -/
theorem claim_c7_witness :
    (∀ l ∈ [1800, 1700],
      find_best_orientation (2000, 2000, 2000) 1200 800 l 30 = Except.ok none) ∧
    compute_box_metrics (2000, 2000, 2000) 1200 800 30 [1800, 1700] = Except.ok
      { dims_mm := (2000, 2000, 2000)
        sorted_dims_mm := sortDesc (2000, 2000, 2000)
        best_by_height := [1800, 1700].map (fun l => (l, none)) } ∧
    compute_box_metrics (2000, 2000, 2000) 1200 800 30 [1800, 1700] = Except.ok
      { dims_mm := (2000, 2000, 2000)
        sorted_dims_mm := (2000, 2000, 2000)
        best_by_height := [(1800, none), (1700, none)] } :=
  claim_c7 2000 2000 2000 1200 800 30 (by decide) (by decide) (by decide)
    [1800, 1700] (by decide)

/-- C10: for a positive dimension triple and fixed footprint and overhang,
the best-orientation result is monotone in the height limit: if a summary
exists at the smaller limit, one exists at the larger limit with at least
the same total. -/
theorem claim_c10 (a b c pl pw ov hl₁ hl₂ : Nat)
    (ha : 0 < a) (hb : 0 < b) (hc : 0 < c) (hle : hl₁ ≤ hl₂)
    (s₁ : OrientationSummary)
    (h₁ : find_best_orientation (a, b, c) pl pw hl₁ ov = Except.ok (some s₁)) :
    ∃ s₂, find_best_orientation (a, b, c) pl pw hl₂ ov = Except.ok (some s₂) ∧
      s₁.total ≤ s₂.total := by
  rw [find_eq_pure a b c pl pw hl₁ ov ha hb hc] at h₁
  have hp₁ : bestLoopP (pl + ov) (pw + ov) hl₁
      (unique_permutations (a, b, c)) none = some s₁ := by
    injection h₁
  rcases bestLoopP_provenance (pl + ov) (pw + ov) hl₁
      (unique_permutations (a, b, c)) none s₁ hp₁ with hx | ⟨o, ho, hev₁⟩
  · exact Option.noConfusion hx
  · obtain ⟨-, ho1, ho2, ho3, hohl, hg1, hg2, hper, hlay, htot, hq1, hq2, -⟩ :=
      evalP_some_spec hev₁
    have hfit₂ := evalP_fit (pl + ov) (pw + ov) hl₂
      o ho1 ho2 (Nat.pos_of_ne_zero ho3) (le_trans hohl hle)
      (by rw [← hg1]; exact hq1) (by rw [← hg2]; exact hq2)
    cases hrun₂ : bestLoopP (pl + ov) (pw + ov) hl₂
        (unique_permutations (a, b, c)) none with
    | none =>
      exfalso
      have := (bestLoopP_none_iff (pl + ov) (pw + ov) hl₂
        (unique_permutations (a, b, c)) none).mp hrun₂
      exact absurd hfit₂ (by rw [this.2 o ho]; simp)
    | some s₂ =>
      refine ⟨s₂, by rw [find_eq_pure a b c pl pw hl₂ ov ha hb hc, hrun₂], ?_⟩
      have hopt := (bestLoopP_opt (pl + ov) (pw + ov) hl₂
        (unique_permutations (a, b, c)) none s₂ hrun₂).2 o ho _ hfit₂
      have hbound := Better_total_le hopt
      simp only at hbound
      calc s₁.total = (s₁.grid.1 * s₁.grid.2) * (hl₁ / o.2.2) := by
            rw [htot, hper, hlay]
        _ ≤ ((pl + ov) / o.1 * ((pw + ov) / o.2.1)) * (hl₂ / o.2.2) := by
            rw [hg1, hg2]
            exact Nat.mul_le_mul_left _ (Nat.div_le_div_right hle)
        _ ≤ s₂.total := hbound

/-- Witness for C10: dims (400,300,200), pallet 1200×800, overhang 30,
limits 1700 ≤ 1800. -/
theorem claim_c10_witness :
    ∃ s₂, find_best_orientation (400, 300, 200) 1200 800 1800 30 =
        Except.ok (some s₂) ∧
      ({ orientation := (300, 400, 200), per_layer := 8, layers := 8,
         total := 64, grid := (4, 2) } : OrientationSummary).total ≤ s₂.total :=
  claim_c10 400 300 200 1200 800 30 1700 1800 (by decide) (by decide)
    (by decide) (by decide)
    { orientation := (300, 400, 200), per_layer := 8, layers := 8,
      total := 64, grid := (4, 2) }
    (by rfl)

theorem findSome_eq_none_iff {α β : Type} (f : α → Option β) :
    ∀ (l : List α), l.findSome? f = none ↔ ∀ x ∈ l, f x = none := by
  intro l
  induction l with
  | nil => simp
  | cons a rest ih =>
    simp only [List.findSome?]
    cases hfa : f a with
    | none =>
      rw [ih]
      constructor
      · intro h x hx
        rcases List.mem_cons.mp hx with rfl | hx'
        · exact hfa
        · exact h x hx'
      · intro h x hx
        exact h x (List.mem_cons_of_mem a hx)
    | some b =>
      constructor
      · intro h; exact Option.noConfusion h
      · intro h
        exact absurd hfa (by rw [h a (List.mem_cons_self a rest)]; simp)

theorem findSome_eq_some_split {α β : Type} (f : α → Option β) :
    ∀ (l : List α) (b : β), l.findSome? f = some b →
    ∃ l₁ x l₂, l = l₁ ++ x :: l₂ ∧ f x = some b ∧ ∀ y ∈ l₁, f y = none := by
  intro l
  induction l with
  | nil => intro b h; exact Option.noConfusion h
  | cons a rest ih =>
    intro b h
    simp only [List.findSome?] at h
    cases hfa : f a with
    | none =>
      rw [hfa] at h
      obtain ⟨l₁, x, l₂, heq, hx, hnone⟩ := ih b h
      refine ⟨a :: l₁, x, l₂, by rw [heq]; rfl, hx, ?_⟩
      intro y hy
      rcases List.mem_cons.mp hy with rfl | hy'
      · exact hfa
      · exact hnone y hy'
    | some b' =>
      rw [hfa] at h
      rw [Option.some.injEq] at h
      subst h
      exact ⟨[], a, rest, rfl, hfa, by simp⟩

theorem mem_crossPairs {p : Tri × Tri} :
    ∀ {A B : List Tri}, p ∈ crossPairs A B ↔ p.1 ∈ A ∧ p.2 ∈ B := by
  intro A
  induction A with
  | nil => intro B; simp [crossPairs]
  | cons a as ih =>
    intro B
    simp only [crossPairs, List.mem_append, List.mem_map, List.mem_cons, ih]
    constructor
    · rintro (⟨b, hb, rfl⟩ | ⟨h1, h2⟩)
      · exact ⟨Or.inl rfl, hb⟩
      · exact ⟨Or.inr h1, h2⟩
    · rintro ⟨h1 | h1, h2⟩
      · left; exact ⟨p.2, h2, by rw [← h1]⟩
      · right; exact ⟨h1, h2⟩

theorem pairwise_crossPairs :
    ∀ {A B : List Tri}, A.Pairwise triLt → B.Pairwise triLt →
    (crossPairs A B).Pairwise pairLt := by
  intro A
  induction A with
  | nil => intro B _ _; simp [crossPairs]
  | cons a as ih =>
    intro B hA hB
    rw [List.pairwise_cons] at hA
    simp only [crossPairs]
    rw [List.pairwise_append]
    refine ⟨?_, ih hA.2 hB, ?_⟩
    · rw [List.pairwise_map]
      exact hB.imp (fun hbb => Or.inr ⟨rfl, hbb⟩)
    · intro p hp q hq
      obtain ⟨b, _, rfl⟩ := List.mem_map.mp hp
      have hq2 := (mem_crossPairs.mp hq).1
      exact Or.inl (hA.1 q.1 hq2)

theorem tryPair_some_spec {maxL maxW hl : Nat} {oa ob : Tri} {d : ComboDetail}
    (h : tryPair maxL maxW hl oa ob = some d) :
    d.orientation_a = oa ∧ d.orientation_b = ob ∧
    oa.2.2 ≤ hl ∧ ob.2.2 ≤ hl ∧
    (d.arrangement = Arrangement.length → lengthCond maxL maxW oa ob) ∧
    (d.arrangement = Arrangement.width →
      ¬ lengthCond maxL maxW oa ob ∧ widthCond maxL maxW oa ob) ∧
    (d.arrangement = Arrangement.stack →
      ¬ lengthCond maxL maxW oa ob ∧ ¬ widthCond maxL maxW oa ob ∧
      stackCond maxL maxW hl oa ob) := by
  simp only [tryPair] at h
  split_ifs at h with h1 h2 h3 h4 <;>
    first
    | exact Option.noConfusion h
    | (rw [Option.some.injEq] at h
       subst h
       refine ⟨rfl, rfl, by omega, by omega, ?_, ?_, ?_⟩ <;> intro harr <;>
         first | exact Arrangement.noConfusion harr | tauto)

theorem tryPair_none_iff {maxL maxW hl : Nat} {oa ob : Tri} :
    tryPair maxL maxW hl oa ob = none ↔
      ((oa.2.2 > hl ∨ ob.2.2 > hl) ∨
       (¬ lengthCond maxL maxW oa ob ∧ ¬ widthCond maxL maxW oa ob ∧
        ¬ stackCond maxL maxW hl oa ob)) := by
  simp only [tryPair]
  split_ifs with h1 h2 h3 h4 <;>
    simp_all [lengthCond, widthCond, stackCond]

theorem tryPair_none_swap {maxL maxW hl : Nat} {oa ob : Tri} :
    tryPair maxL maxW hl oa ob = none ↔ tryPair maxL maxW hl ob oa = none := by
  rw [tryPair_none_iff, tryPair_none_iff]
  unfold lengthCond widthCond stackCond
  omega

theorem combPair_true_iff (dA dB : Tri) (pl pw ov hl : Nat) :
    (evaluate_combination_pair dA dB pl pw ov hl).1 = true ↔
      ∃ oa ∈ unique_permutations dA, ∃ ob ∈ unique_permutations dB,
        tryPair (pl + ov) (pw + ov) hl oa ob ≠ none := by
  unfold evaluate_combination_pair
  cases hfs : (crossPairs (unique_permutations dA) (unique_permutations dB)).findSome?
      (fun p => tryPair (pl + ov) (pw + ov) hl p.1 p.2) with
  | none =>
    simp only [Bool.false_eq_true, false_iff]
    rintro ⟨oa, hoa, ob, hob, hne⟩
    exact hne ((findSome_eq_none_iff _ _).mp hfs (oa, ob)
      (mem_crossPairs.mpr ⟨hoa, hob⟩))
  | some d =>
    simp only [true_iff]
    obtain ⟨l₁, x, l₂, heq, hx, -⟩ := findSome_eq_some_split _ _ d hfs
    have hxmem : x ∈ crossPairs (unique_permutations dA) (unique_permutations dB) := by
      rw [heq]; simp
    obtain ⟨h1, h2⟩ := mem_crossPairs.mp hxmem
    exact ⟨x.1, h1, x.2, h2, by rw [hx]; simp⟩

/-- C9: swapping the two boxes does not change the feasibility boolean of
`evaluate_combination_pair` (all three arrangement conditions are
symmetric in the two orientations). -/
theorem claim_c9 (dA dB : Tri) (pl pw ov hl : Nat) :
    (evaluate_combination_pair dA dB pl pw ov hl).1 =
      (evaluate_combination_pair dB dA pl pw ov hl).1 := by
  have hiff : (evaluate_combination_pair dA dB pl pw ov hl).1 = true ↔
      (evaluate_combination_pair dB dA pl pw ov hl).1 = true := by
    rw [combPair_true_iff, combPair_true_iff]
    constructor
    · rintro ⟨oa, hoa, ob, hob, hne⟩
      exact ⟨ob, hob, oa, hoa, fun hn => hne (tryPair_none_swap.mpr hn)⟩
    · rintro ⟨ob, hob, oa, hoa, hne⟩
      exact ⟨oa, hoa, ob, hob, fun hn => hne (tryPair_none_swap.mpr hn)⟩
  cases hb1 : (evaluate_combination_pair dA dB pl pw ov hl).1 <;>
    cases hb2 : (evaluate_combination_pair dB dA pl pw ov hl).1 <;>
    simp_all

theorem combPair_eq_true_some {dA dB : Tri} {pl pw ov hl : Nat} {d : ComboDetail}
    (h : evaluate_combination_pair dA dB pl pw ov hl = (true, some d)) :
    (crossPairs (unique_permutations dA) (unique_permutations dB)).findSome?
      (fun p => tryPair (pl + ov) (pw + ov) hl p.1 p.2) = some d := by
  unfold evaluate_combination_pair at h
  cases hfs : (crossPairs (unique_permutations dA) (unique_permutations dB)).findSome?
      (fun p => tryPair (pl + ov) (pw + ov) hl p.1 p.2) with
  | none => rw [hfs] at h; simp at h
  | some d' => rw [hfs] at h; simp at h; rw [h]

/-- C2: a successful `evaluate_combination_pair` result is the first
feasible orientation pair in the row-major cross product of the two
deduplicated orientation lists (everything before it fails), the cross
product enumerates exactly the pairs of enumerated orientations in
strictly ascending lexicographic order, the winning arrangement is the
first of length, width, stack whose condition holds for that pair, and the
concrete scenario A = B = (100,100,100), pallet 300×300, overhang 0,
height limit 200 succeeds with the `length` arrangement. -/
theorem claim_c2 (dA dB : Tri) (pl pw ov hl : Nat) (d : ComboDetail)
    (h : evaluate_combination_pair dA dB pl pw ov hl = (true, some d)) :
    (∃ l₁ p l₂,
      crossPairs (unique_permutations dA) (unique_permutations dB) =
        l₁ ++ p :: l₂ ∧
      tryPair (pl + ov) (pw + ov) hl p.1 p.2 = some d ∧
      (∀ q ∈ l₁, tryPair (pl + ov) (pw + ov) hl q.1 q.2 = none) ∧
      d.orientation_a = p.1 ∧ d.orientation_b = p.2 ∧
      (d.arrangement = Arrangement.length →
        lengthCond (pl + ov) (pw + ov) p.1 p.2) ∧
      (d.arrangement = Arrangement.width →
        ¬ lengthCond (pl + ov) (pw + ov) p.1 p.2 ∧
        widthCond (pl + ov) (pw + ov) p.1 p.2) ∧
      (d.arrangement = Arrangement.stack →
        ¬ lengthCond (pl + ov) (pw + ov) p.1 p.2 ∧
        ¬ widthCond (pl + ov) (pw + ov) p.1 p.2 ∧
        stackCond (pl + ov) (pw + ov) hl p.1 p.2)) ∧
    (∀ oa ob : Tri,
      (oa, ob) ∈ crossPairs (unique_permutations dA) (unique_permutations dB) ↔
        oa ∈ unique_permutations dA ∧ ob ∈ unique_permutations dB) ∧
    (crossPairs (unique_permutations dA) (unique_permutations dB)).Pairwise pairLt ∧
    evaluate_combination_pair (100, 100, 100) (100, 100, 100) 300 300 0 200 =
      (true, some
        { orientation_a := (100, 100, 100), orientation_b := (100, 100, 100),
          arrangement := Arrangement.length }) := by
  refine ⟨?_, fun oa ob => mem_crossPairs, ?_, by rfl⟩
  · obtain ⟨l₁, p, l₂, heq, hp, hnone⟩ :=
      findSome_eq_some_split _ _ d (combPair_eq_true_some h)
    obtain ⟨ha1, ha2, -, -, hlen, hwid, hstk⟩ := tryPair_some_spec hp
    exact ⟨l₁, p, l₂, heq, hp, hnone, ha1, ha2, hlen, hwid, hstk⟩
  · exact pairwise_crossPairs (unique_permutations_pairwise dA)
      (unique_permutations_pairwise dB)

/-- Witness for C2 at the scenario of spec §8 Scenario 4. -/
theorem claim_c2_witness :
    (∃ l₁ p l₂,
      crossPairs (unique_permutations (100, 100, 100))
          (unique_permutations (100, 100, 100)) = l₁ ++ p :: l₂ ∧
      tryPair 300 300 200 p.1 p.2 = some
        { orientation_a := (100, 100, 100), orientation_b := (100, 100, 100),
          arrangement := Arrangement.length } ∧
      (∀ q ∈ l₁, tryPair 300 300 200 q.1 q.2 = none) ∧
      ({ orientation_a := (100, 100, 100), orientation_b := (100, 100, 100),
         arrangement := Arrangement.length } : ComboDetail).orientation_a = p.1 ∧
      ({ orientation_a := (100, 100, 100), orientation_b := (100, 100, 100),
         arrangement := Arrangement.length } : ComboDetail).orientation_b = p.2 ∧
      (({ orientation_a := (100, 100, 100), orientation_b := (100, 100, 100),
          arrangement := Arrangement.length } : ComboDetail).arrangement =
            Arrangement.length → lengthCond 300 300 p.1 p.2) ∧
      (({ orientation_a := (100, 100, 100), orientation_b := (100, 100, 100),
          arrangement := Arrangement.length } : ComboDetail).arrangement =
            Arrangement.width → ¬ lengthCond 300 300 p.1 p.2 ∧
          widthCond 300 300 p.1 p.2) ∧
      (({ orientation_a := (100, 100, 100), orientation_b := (100, 100, 100),
          arrangement := Arrangement.length } : ComboDetail).arrangement =
            Arrangement.stack → ¬ lengthCond 300 300 p.1 p.2 ∧
          ¬ widthCond 300 300 p.1 p.2 ∧ stackCond 300 300 200 p.1 p.2)) ∧
    (∀ oa ob : Tri,
      (oa, ob) ∈ crossPairs (unique_permutations (100, 100, 100))
          (unique_permutations (100, 100, 100)) ↔
        oa ∈ unique_permutations (100, 100, 100) ∧
        ob ∈ unique_permutations (100, 100, 100)) ∧
    (crossPairs (unique_permutations (100, 100, 100))
        (unique_permutations (100, 100, 100))).Pairwise pairLt ∧
    evaluate_combination_pair (100, 100, 100) (100, 100, 100) 300 300 0 200 =
      (true, some
        { orientation_a := (100, 100, 100), orientation_b := (100, 100, 100),
          arrangement := Arrangement.length }) :=
  claim_c2 (100, 100, 100) (100, 100, 100) 300 300 0 200
    { orientation_a := (100, 100, 100), orientation_b := (100, 100, 100),
      arrangement := Arrangement.length }
    (by rfl)

theorem combPair_false_none {dA dB : Tri} {pl pw ov hl : Nat}
    (h : (evaluate_combination_pair dA dB pl pw ov hl).1 = false) :
    (evaluate_combination_pair dA dB pl pw ov hl).2 = none := by
  unfold evaluate_combination_pair at h ⊢
  cases hfs : (crossPairs (unique_permutations dA) (unique_permutations dB)).findSome?
      (fun p => tryPair (pl + ov) (pw + ov) hl p.1 p.2) with
  | none => rfl
  | some d => rw [hfs] at h; simp at h

/-- C3: `evaluate_combination_for_group` returns an empty mapping for
groups of size 0 or 1; for a group of exactly two boxes it returns, for
every configured height limit, the pair evaluator's verdict with no note
(and an infeasible pair carries no detail); for groups of three or more
boxes it performs no pairwise search and marks every height limit
infeasible with a non-empty explicit note. -/
theorem claim_c3 (dims_list : List Tri) (pl pw ov : Nat) (limits : List Nat) :
    (dims_list.length < 2 →
      evaluate_combination_for_group dims_list pl pw ov limits = []) ∧
    (∀ a b, dims_list = [a, b] → ∀ limit ∈ limits,
      (limit, ({ ok := (evaluate_combination_pair a b pl pw ov limit).1,
                 detail := (evaluate_combination_pair a b pl pw ov limit).2,
                 note := none } : GroupResult)) ∈
        evaluate_combination_for_group dims_list pl pw ov limits) ∧
    (∀ a b limit, (evaluate_combination_pair a b pl pw ov limit).1 = false →
      (evaluate_combination_pair a b pl pw ov limit).2 = none) ∧
    (2 < dims_list.length → ∀ limit ∈ limits,
      (limit, ({ ok := false, detail := none,
                 note := some "Более двух артикулов в группе" } : GroupResult)) ∈
        evaluate_combination_for_group dims_list pl pw ov limits ∧
      "Более двух артикулов в группе" ≠ "") := by
  refine ⟨?_, ?_, fun a b limit h => combPair_false_none h, ?_⟩
  · intro h
    match dims_list, h with
    | [], _ => rfl
    | [_], _ => rfl
  · intro a b heq limit hmem
    subst heq
    simp only [evaluate_combination_for_group]
    exact List.mem_map.mpr ⟨limit, hmem, rfl⟩
  · intro h limit hmem
    match dims_list, h with
    | _ :: _ :: _ :: _, _ =>
      refine ⟨?_, by decide⟩
      simp only [evaluate_combination_for_group]
      exact List.mem_map.mpr ⟨limit, hmem, rfl⟩

/-- Witness for C3: a singleton group, the scenario-4 pair group, an
infeasible pair, and a three-box group. -/
theorem claim_c3_witness :
    evaluate_combination_for_group [(100, 100, 100)] 300 300 0 [200] = [] ∧
    ((200 : Nat),
      ({ ok := (evaluate_combination_pair (100, 100, 100) (100, 100, 100)
           300 300 0 200).1,
         detail := (evaluate_combination_pair (100, 100, 100) (100, 100, 100)
           300 300 0 200).2,
         note := none } : GroupResult)) ∈
      evaluate_combination_for_group [(100, 100, 100), (100, 100, 100)]
        300 300 0 [200] ∧
    (evaluate_combination_pair (100, 100, 100) (4000, 4000, 4000)
      300 300 0 200).2 = none ∧
    ((200 : Nat),
      ({ ok := false, detail := none,
         note := some "Более двух артикулов в группе" } : GroupResult)) ∈
      evaluate_combination_for_group
        [(100, 100, 100), (100, 100, 100), (100, 100, 100)] 300 300 0 [200] :=
  ⟨(claim_c3 [(100, 100, 100)] 300 300 0 [200]).1 (by decide),
   (claim_c3 [(100, 100, 100), (100, 100, 100)] 300 300 0 [200]).2.1
     (100, 100, 100) (100, 100, 100) rfl 200 (by decide),
   (claim_c3 [] 300 300 0 []).2.2.1 (100, 100, 100) (4000, 4000, 4000) 200
     (by rfl),
   ((claim_c3 [(100, 100, 100), (100, 100, 100), (100, 100, 100)]
     300 300 0 [200]).2.2.2 (by decide) 200 (by decide)).1⟩

/-- C6: `unique_permutations` returns exactly the distinct permutations of
the triple, strictly sorted in ascending lexicographic order (hence
deduplicated), with cardinality 1 when all three values are equal, 3 when
exactly two are equal, and 6 when all are distinct; it is total. -/
theorem claim_c6 (a b c : Nat) :
    (unique_permutations (a, b, c)).Pairwise triLt ∧
    (∀ o, o ∈ unique_permutations (a, b, c) ↔ o ∈ perms (a, b, c)) ∧
    (a = b ∧ b = c → (unique_permutations (a, b, c)).length = 1) ∧
    ((a = b ∧ b ≠ c) ∨ (a = c ∧ a ≠ b) ∨ (b = c ∧ a ≠ b) →
      (unique_permutations (a, b, c)).length = 3) ∧
    (a ≠ b ∧ b ≠ c ∧ a ≠ c → (unique_permutations (a, b, c)).length = 6) := by
  refine ⟨unique_permutations_pairwise _, fun o => mem_unique_permutations,
    ?_, ?_, ?_⟩
  · rintro ⟨rfl, rfl⟩
    rw [unique_permutations_length, card_perms_all_eq]
  · rintro (⟨rfl, hne⟩ | ⟨rfl, hne⟩ | ⟨rfl, hne⟩)
    · rw [unique_permutations_length, card_perms_ab_eq a c hne]
    · rw [unique_permutations_length, card_perms_ac_eq a b hne]
    · rw [unique_permutations_length, card_perms_bc_eq a b hne]
  · rintro ⟨h1, h2, h3⟩
    rw [unique_permutations_length, card_perms_distinct a b c h1 h2 h3]

/-- Witness for C6 at (5,5,5), (5,5,7) and (3,4,5). -/
theorem claim_c6_witness :
    (unique_permutations (5, 5, 5)).length = 1 ∧
    (unique_permutations (5, 5, 7)).length = 3 ∧
    (unique_permutations (3, 4, 5)).length = 6 :=
  ⟨(claim_c6 5 5 5).2.2.1 ⟨rfl, rfl⟩,
   (claim_c6 5 5 7).2.2.2.1 (Or.inl ⟨rfl, by decide⟩),
   (claim_c6 3 4 5).2.2.2.2 ⟨by decide, by decide, by decide⟩⟩

/-- C8: `parse_dimension_value` converts non-boolean numeric inputs
directly (15 parses to 15.0); for strings it trims whitespace, fails on
blank strings, normalizes commas to decimal points, strips characters
other than digits, sign and point, fails when the residue is empty or a
lone sign/point, and otherwise parses the residue as a float
("12,5 cm" parses to 12.5); it fails on null, booleans and any other
input type. -/
theorem claim_c8 :
    (∀ n : Int, parse_dimension_value (RawValue.int n) = some (n : ℚ)) ∧
    (∀ q : ℚ, parse_dimension_value (RawValue.float q) = some q) ∧
    parse_dimension_value (RawValue.int 15) = some 15 ∧
    parse_dimension_value RawValue.null = none ∧
    (∀ b, parse_dimension_value (RawValue.bool b) = none) ∧
    parse_dimension_value RawValue.other = none ∧
    parse_dimension_value (RawValue.str "") = none ∧
    (∀ s : String, trimChars s.toList = [] →
      parse_dimension_value (RawValue.str s) = none) ∧
    (∀ s : String,
      cleanChars (trimChars s.toList) = [] ∨
      cleanChars (trimChars s.toList) = ['+'] ∨
      cleanChars (trimChars s.toList) = ['-'] ∨
      cleanChars (trimChars s.toList) = ['.'] →
      parse_dimension_value (RawValue.str s) = none) ∧
    (∀ s : String, trimChars s.toList ≠ [] →
      ¬(cleanChars (trimChars s.toList) = [] ∨
        cleanChars (trimChars s.toList) = ['+'] ∨
        cleanChars (trimChars s.toList) = ['-'] ∨
        cleanChars (trimChars s.toList) = ['.']) →
      parse_dimension_value (RawValue.str s) =
        parseFloatChars (cleanChars (trimChars s.toList))) ∧
    parse_dimension_value (RawValue.str "12,5 cm") = some (25 / 2) := by
  refine ⟨fun n => rfl, fun q => rfl, rfl, rfl, fun b => rfl, rfl, rfl,
    ?_, ?_, ?_, ?_⟩
  · intro s h
    simp only [parse_dimension_value]
    rw [if_pos h]
  · intro s h
    simp only [parse_dimension_value]
    by_cases htrim : trimChars s.toList = []
    · rw [if_pos htrim]
    · rw [if_neg htrim, if_pos h]
  · intro s h1 h2
    simp only [parse_dimension_value]
    rw [if_neg h1, if_neg h2]
  · have hstep : parse_dimension_value (RawValue.str "12,5 cm") =
        parseFloatChars ['1', '2', '.', '5'] := by rfl
    have h3 : parseFloatChars ['1', '2', '.', '5'] =
        some ((1 : ℚ) * (((12 : ℕ) : ℚ) + ((5 : ℕ) : ℚ) / (10 : ℚ) ^ (1 : ℕ))) := by
      rfl
    rw [hstep, h3]
    norm_num

/-- Witness for C8 on concrete inputs of each branch. -/
theorem claim_c8_witness :
    parse_dimension_value (RawValue.int (-3)) = some ((-3 : Int) : ℚ) ∧
    parse_dimension_value (RawValue.float (7 / 2)) = some (7 / 2) ∧
    parse_dimension_value (RawValue.bool true) = none ∧
    parse_dimension_value (RawValue.str "  ") = none ∧
    parse_dimension_value (RawValue.str "+x") = none ∧
    parse_dimension_value (RawValue.str "1-2") =
      parseFloatChars (cleanChars (trimChars "1-2".toList)) :=
  ⟨claim_c8.1 (-3),
   claim_c8.2.1 (7 / 2),
   claim_c8.2.2.2.2.1 true,
   claim_c8.2.2.2.2.2.2.2.1 "  " (by decide),
   claim_c8.2.2.2.2.2.2.2.2.1 "+x" (by decide),
   claim_c8.2.2.2.2.2.2.2.2.2.1 "1-2" (by decide) (by decide)⟩
